import Mathlib

/-!
# blockrelayer: a verification development for `cmd/relayer/main.go`

The relayer copies trusted blocks from a writer node to a reader node.  This file
embeds `start`, `getCurrentBlockNumber`, `getTrustedByNumber`, `getTrustedByHash`
and `importTrustedBlock` as Lean functions over an abstract network, and proves
properties of the calls they make.

Conventions of the embedding:

* a Go `string` is a `List Char`; the only searches the program performs are for
  ASCII patterns, for which searching characters and searching bytes agree;
* a `uint64` is a `Nat` below `2 ^ 64`; `+`, `-` and `++` wrap modulo `2 ^ 64`;
* the network is a deterministic machine `Net σ` over a state `σ`; every call
  threads the state, so the answers may depend on everything that happened before;
* a run of `start` is the list of its observable events together with its outcome;
  loops are unrolled under a bound `fuel` on their iterations.
-/

namespace Relayer

/-! ## Go strings -/

/-- Go `strings.HasPrefix(s, prefix)`. -/
def HasPrefix : List Char → List Char → Bool
  | _, [] => true
  | [], _ :: _ => false
  | c :: s, p :: ps => c == p && HasPrefix s ps

/-- Go `strings.Index(s, substr)`: the offset of the first occurrence of `substr` in `s`,
`none` standing for `-1`. -/
def Index : List Char → List Char → Option Nat
  | [], substr => if HasPrefix [] substr then some 0 else none
  | c :: s, substr =>
    if HasPrefix (c :: s) substr then some 0
    else (Index s substr).map (· + 1)

/-- Go `strings.Contains(s, substr)`, that is `Index(s, substr) >= 0`. -/
def Contains (s substr : List Char) : Bool :=
  (Index s substr).isSome

/-- The loop of Go `strings.genSplit` for a non-empty separator: cut `s` at the first
occurrence of `sep`, keep the part before it, and go on after it.  The bound `n` on the
number of cuts plays the part of `Count(s, sep)`. -/
def genSplit (sep : List Char) : Nat → List Char → List (List Char)
  | 0, s => [s]
  | n + 1, s =>
    match Index s sep with
    | none => [s]
    | some m => s.take m :: genSplit sep n (s.drop (m + sep.length))

/-- Go `strings.Split(s, sep)` for a non-empty `sep` (the program only splits at
non-empty literals): the substrings between the non-overlapping occurrences of `sep`,
found from left to right.  There are at most `len(s)` occurrences. -/
def Split (s sep : List Char) : List (List Char) :=
  genSplit sep s.length s

/-- Go `fmt.Sprintf("%v", n)` for a `uint64`: the decimal digits. -/
def fmtV (n : Nat) : List Char :=
  (Nat.repr n).toList

/-! ## Machine integers -/

/-- The number of `uint64` values. -/
def uint64Size : Nat := 2 ^ 64

/-- Wrapping `uint64` addition. -/
def add64 (a b : Nat) : Nat := (a + b) % uint64Size

/-- Wrapping `uint64` subtraction. -/
def sub64 (a b : Nat) : Nat := (a % uint64Size + (uint64Size - b % uint64Size)) % uint64Size

/-! ## Errors, results and the network -/

/-- A Go `error` value of the program. -/
inductive GoError where
  /-- An error handed up unchanged from `http.NewRequest`, `client.Do`,
  `ioutil.ReadAll`, `ethclient.Dial` or `client.BlockNumber`. -/
  | transport (msg : List Char)
  /-- The error `fmt.Errorf(string(body))` built from a response body. -/
  | errorf (body : List Char)
  deriving DecidableEq, Repr

/-- What a call of one of the program's functions does: return a value with a `nil`
error, return a non-`nil` error, or stop the program with a run-time panic (an index
out of range: `a[i]` on a slice `a` is `a[i]?`, with `none` for the panic). -/
inductive Ret (α : Type) where
  | ok (a : α)
  | err (e : GoError)
  | panic
  deriving DecidableEq, Repr

/-- An HTTP response whose body was read completely. -/
structure Response where
  StatusCode : Nat
  Body : List Char
  deriving DecidableEq, Repr

/-- What the library hands back: a value, or an error. -/
inductive Reply (α : Type) where
  | ok (a : α)
  | error (e : GoError)
  deriving DecidableEq, Repr

/-- The two endpoints as the program sees them, a deterministic machine on a state `σ`.
`BlockNumber s api` is `ethclient.Dial(api)` followed by `client.BlockNumber` and
`client.Close`; `Post s api body` is `http.NewRequest("POST", api, body)`, `client.Do` and
`ioutil.ReadAll` of the response body.  Each gives its reply and the next state. -/
structure Net (σ : Type) where
  BlockNumber : σ → List Char → Reply Nat × σ
  Post : σ → List Char → List Char → Reply Response × σ

/-- The literal the result is searched for: `"result" : "`. -/
def resultMarker : List Char := "\"result\" : \"".toList

/-- The request body built by `getTrustedByNumber`. -/
def byNumberRequest (num : Nat) : List Char :=
  "\x7b\"jsonrpc\":\"2.0\",\"method\":\"admin_retrieveTrustedBlock\",\"params\":[false, false, ".toList
    ++ fmtV num ++ "],\"id\":1\x7d".toList

/-- The request body built by `getTrustedByHash`. -/
def byHashRequest (hash : List Char) : List Char :=
  "\x7b\"jsonrpc\":\"2.0\",\"method\":\"admin_retrieveTrustedBlock\",\"params\":[false, true, \"".toList
    ++ hash ++ "\"],\"id\":1\x7d".toList

/-- The request body built by `importTrustedBlock`. -/
def importRequest (block : List Char) : List Char :=
  "\x7b\"jsonrpc\":\"2.0\",\"method\":\"admin_importTrustedBlock\",\"params\":[\"".toList
    ++ block ++ "\"],\"id\":1\x7d".toList

/-- The function `getCurrentBlockNumber(api)` (lines 118-129): the height read from the
endpoint, a `uint64`, or the error of the library. -/
def getCurrentBlockNumber {σ : Type} (net : Net σ) (s : σ) (api : List Char) : Ret Nat × σ :=
  match net.BlockNumber s api with
  | (.error e, s') => (.err e, s')
  | (.ok num, s') => (.ok (num % uint64Size), s')

/-- The function `getTrustedByNumber(writerAPI, num)` (lines 131-151).  The three error
returns of lines 133-146 are the `error` reply of `Post`. -/
def getTrustedByNumber {σ : Type} (net : Net σ) (s : σ) (writerAPI : List Char) (num : Nat) :
    Ret (List Char) × σ :=
  match net.Post s writerAPI (byNumberRequest num) with
  | (.error e, s') => (.err e, s')
  | (.ok resp, s') =>
    if resp.StatusCode ≠ 200 || Contains resp.Body "error".toList then
      (.err (.errorf resp.Body), s')
    else
      match (Split resp.Body resultMarker)[1]? with
      | none => (.panic, s')
      | some part =>
        match (Split part "\"".toList)[0]? with
        | none => (.panic, s')
        | some block => (.ok block, s')

/-- The function `getTrustedByHash(writerAPI, hash)` (lines 153-173). -/
def getTrustedByHash {σ : Type} (net : Net σ) (s : σ) (writerAPI : List Char) (hash : List Char) :
    Ret (List Char) × σ :=
  match net.Post s writerAPI (byHashRequest hash) with
  | (.error e, s') => (.err e, s')
  | (.ok resp, s') =>
    if resp.StatusCode ≠ 200 || Contains resp.Body "error".toList then
      (.err (.errorf resp.Body), s')
    else
      match (Split resp.Body resultMarker)[1]? with
      | none => (.panic, s')
      | some part =>
        match (Split part "\"".toList)[0]? with
        | none => (.panic, s')
        | some block => (.ok block, s')

/-- The function `importTrustedBlock(readerAPI, block)` (lines 175-195). -/
def importTrustedBlock {σ : Type} (net : Net σ) (s : σ) (readerAPI : List Char) (block : List Char) :
    Ret Unit × σ :=
  match net.Post s readerAPI (importRequest block) with
  | (.error e, s') => (.err e, s')
  | (.ok resp, s') =>
    if resp.StatusCode ≠ 200 || Contains resp.Body "error".toList then
      (.err (.errorf resp.Body), s')
    else
      (.ok (), s')

/-! ## Runs of `start` -/

/-- The two loops of `start`. -/
inductive Loop where
  /-- The loop `for target > readerNumber` of line 81. -/
  | target
  /-- The loop `for` of line 96. -/
  | continuous
  deriving DecidableEq, Repr

/-- What a run of `start` does, one after the other: the three kinds of calls, each
with its arguments and what it returned, the lines printed, the sleeps, and a mark
where control reaches one of the two loops. -/
inductive Event where
  | getCurrentBlockNumber (api : List Char) (ret : Ret Nat)
  | getTrustedByNumber (writerAPI : List Char) (num : Nat) (ret : Ret (List Char))
  | importTrustedBlock (readerAPI : List Char) (block : List Char) (ret : Ret Unit)
  | print (text : List Char)
  | sleep (seconds : Nat)
  | enter (loop : Loop)
  deriving DecidableEq, Repr

/-- How a run ends: `start` returns its error (`none` for `nil`), the program panics, or
the bound on the loop iterations is used up before either. -/
inductive Outcome where
  | returned (err : Option GoError)
  | panicked
  | outOfFuel
  deriving DecidableEq, Repr

/-- A run: the events in order, and the outcome. -/
structure Run where
  events : List Event
  outcome : Outcome
  deriving DecidableEq, Repr

/-- The run `r` with the events `es` in front. -/
def Run.after (r : Run) (es : List Event) : Run :=
  ⟨es ++ r.events, r.outcome⟩

/-- After a group of statements: go on in state `s`, or leave `start`. -/
inductive Step (α : Type) where
  | next (a : α)
  | stop (o : Outcome)

/-- The statements `block, err := getTrustedByNumber(writerAPI, num)`, `return err` when it
is not `nil`, `err = importTrustedBlock(readerAPI, block)`, `return err` when it is not
`nil`: lines 60-67, 82-89 and 98-105. -/
def relayBlock {σ : Type} (net : Net σ) (s : σ) (writerAPI readerAPI : List Char) (num : Nat) :
    List Event × Step σ :=
  match getTrustedByNumber net s writerAPI num with
  | (.err e, _) => ([.getTrustedByNumber writerAPI num (.err e)], .stop (.returned (some e)))
  | (.panic, _) => ([.getTrustedByNumber writerAPI num .panic], .stop .panicked)
  | (.ok block, s1) =>
    match importTrustedBlock net s1 readerAPI block with
    | (.err e, _) =>
      ([.getTrustedByNumber writerAPI num (.ok block),
        .importTrustedBlock readerAPI block (.err e)], .stop (.returned (some e)))
    | (.panic, _) =>
      ([.getTrustedByNumber writerAPI num (.ok block),
        .importTrustedBlock readerAPI block .panic], .stop .panicked)
    | (.ok (), s2) =>
      ([.getTrustedByNumber writerAPI num (.ok block),
        .importTrustedBlock readerAPI block (.ok ())], .next s2)

/-- The line `Imported #%v, Target #%v`. -/
def importedLine (readerNumber target : Nat) : List Char :=
  "Imported #".toList ++ fmtV readerNumber ++ ", Target #".toList ++ fmtV target ++ "\n".toList

/-- Lines 81-94: the loop `for target > readerNumber` and what follows it. -/
def targetLoop {σ : Type} (net : Net σ) (writerAPI readerAPI : List Char) (target : Nat) :
    Nat → σ → Nat → Run
  | 0, _, readerNumber =>
    if target > readerNumber then ⟨[], .outOfFuel⟩
    else ⟨[.print "Target reached.\n".toList], .returned none⟩
  | fuel + 1, s, readerNumber =>
    if target > readerNumber then
      match relayBlock net s writerAPI readerAPI (add64 readerNumber 1) with
      | (es, .stop o) => ⟨es, o⟩
      | (es, .next s') =>
        (targetLoop net writerAPI readerAPI target fuel s' (add64 readerNumber 1)).after
          (es ++ [.print (importedLine (add64 readerNumber 1) target)])
    else ⟨[.print "Target reached.\n".toList], .returned none⟩

/-- Lines 97-108: the loop `for writerNumber-readerNumber > 256`.  It leaves the state
and the reader counter to the statements after it. -/
def innerLoop {σ : Type} (net : Net σ) (writerAPI readerAPI : List Char) (writerNumber : Nat) :
    Nat → σ → Nat → List Event × Step (σ × Nat)
  | 0, s, readerNumber =>
    if sub64 writerNumber readerNumber > 256 then ([], .stop .outOfFuel)
    else ([], .next (s, readerNumber))
  | fuel + 1, s, readerNumber =>
    if sub64 writerNumber readerNumber > 256 then
      match relayBlock net s writerAPI readerAPI (add64 readerNumber 1) with
      | (es, .stop o) => (es, .stop o)
      | (es, .next s') =>
        let rest := innerLoop net writerAPI readerAPI writerNumber fuel s' (add64 readerNumber 1)
        (es ++ [.print (importedLine (add64 readerNumber 1) (sub64 writerNumber 256))] ++ rest.1,
          rest.2)
    else ([], .next (s, readerNumber))

/-- Lines 96-115: the loop `for` without a condition.  Every round of it runs the inner
loop under the bound `inner`. -/
def continuousLoop {σ : Type} (net : Net σ) (writerAPI readerAPI : List Char) (inner : Nat) :
    Nat → σ → Nat → Nat → Run
  | 0, _, _, _ => ⟨[], .outOfFuel⟩
  | fuel + 1, s, writerNumber, readerNumber =>
    match innerLoop net writerAPI readerAPI writerNumber inner s readerNumber with
    | (es, .stop o) => ⟨es, o⟩
    | (es, .next (s1, readerNumber1)) =>
      match getCurrentBlockNumber net s1 writerAPI with
      | (.err e, _) =>
        ⟨es ++ [.print "Waiting for new target...\n".toList,
          .getCurrentBlockNumber writerAPI (.err e)], .returned (some e)⟩
      | (.panic, _) =>
        ⟨es ++ [.print "Waiting for new target...\n".toList,
          .getCurrentBlockNumber writerAPI .panic], .panicked⟩
      | (.ok writerNumber1, s2) =>
        (continuousLoop net writerAPI readerAPI inner fuel s2 writerNumber1 readerNumber1).after
          (es ++ [.print "Waiting for new target...\n".toList,
            .getCurrentBlockNumber writerAPI (.ok writerNumber1), .sleep 1])

/-- The function `start(writerAPI, readerAPI, target, single)` (lines 58-116) on the network
`net` in state `s`, every loop cut after `fuel` iterations. -/
def start {σ : Type} (fuel : Nat) (net : Net σ) (s : σ) (writerAPI readerAPI : List Char)
    (target single : Nat) : Run :=
  if single ≠ 0 then
    match relayBlock net s writerAPI readerAPI single with
    | (es, .stop o) => ⟨es, o⟩
    | (es, .next _) =>
      ⟨es ++ [.print ("Imported single block #".toList ++ fmtV single ++ "\n".toList)],
        .returned none⟩
  else
    match getCurrentBlockNumber net s readerAPI with
    | (.err e, _) => ⟨[.getCurrentBlockNumber readerAPI (.err e)], .returned (some e)⟩
    | (.panic, _) => ⟨[.getCurrentBlockNumber readerAPI .panic], .panicked⟩
    | (.ok readerNumber, s1) =>
      match getCurrentBlockNumber net s1 writerAPI with
      | (.err e, _) =>
        ⟨[.getCurrentBlockNumber readerAPI (.ok readerNumber),
          .getCurrentBlockNumber writerAPI (.err e)], .returned (some e)⟩
      | (.panic, _) =>
        ⟨[.getCurrentBlockNumber readerAPI (.ok readerNumber),
          .getCurrentBlockNumber writerAPI .panic], .panicked⟩
      | (.ok writerNumber, s2) =>
        if target ≠ 0 then
          (targetLoop net writerAPI readerAPI target fuel s2 readerNumber).after
            [.getCurrentBlockNumber readerAPI (.ok readerNumber),
             .getCurrentBlockNumber writerAPI (.ok writerNumber), .enter .target]
        else
          (continuousLoop net writerAPI readerAPI fuel fuel s2 writerNumber readerNumber).after
            [.getCurrentBlockNumber readerAPI (.ok readerNumber),
             .getCurrentBlockNumber writerAPI (.ok writerNumber), .enter .continuous]

/-! ## Reading a run -/

/-- Whether the event is one of the three calls. -/
def Event.isCall : Event → Bool
  | .getCurrentBlockNumber _ _ => true
  | .getTrustedByNumber _ _ _ => true
  | .importTrustedBlock _ _ _ => true
  | _ => false

/-- The error a call returned, if it returned one. -/
def Event.failure : Event → Option GoError
  | .getCurrentBlockNumber _ (.err e) => some e
  | .getTrustedByNumber _ _ (.err e) => some e
  | .importTrustedBlock _ _ (.err e) => some e
  | _ => none

/-- Whether the event is a call that returned a `nil` error, or no call at all. -/
def Event.succeeded : Event → Bool
  | .getCurrentBlockNumber _ (.ok _) => true
  | .getTrustedByNumber _ _ (.ok _) => true
  | .importTrustedBlock _ _ (.ok _) => true
  | .getCurrentBlockNumber _ _ => false
  | .getTrustedByNumber _ _ _ => false
  | .importTrustedBlock _ _ _ => false
  | _ => true

/-- The calls of a run, in order. -/
def Run.calls (r : Run) : List Event :=
  r.events.filter Event.isCall

/-- The calls `getTrustedByNumber(writerAPI, readerNumber + 1)` returning the first
block of `blocks`, `importTrustedBlock(readerAPI, block)` of that block, and so on for
the following heights and blocks, every call returning a `nil` error. -/
def relayCalls (writerAPI readerAPI : List Char) : Nat → List (List Char) → List Event
  | _, [] => []
  | readerNumber, block :: blocks =>
    .getTrustedByNumber writerAPI (readerNumber + 1) (.ok block)
      :: .importTrustedBlock readerAPI block (.ok ())
      :: relayCalls writerAPI readerAPI (readerNumber + 1) blocks

/-- The run with events `events` and outcome `outcome` stops at the first call that
returns an error: nothing follows such a call, and the outcome is that `start` returns
the very error of the call. -/
def AbortsAtFailure (events : List Event) (outcome : Outcome) : Prop :=
  ∀ (pre : List Event) (ev : Event) (post : List Event) (e : GoError),
    events = pre ++ ev :: post → ev.failure = some e →
      post = [] ∧ outcome = .returned (some e)

/-! ## A network to run the program on -/

/-- A network whose endpoint `reader` is at height `readerHeight` and every other
endpoint at `writerHeight`, and which answers the `n`-th POST with status 200 and the
body `\x7b"jsonrpc":"2.0","id":1,"result" : "0x` n `"\x7d`; the state counts the POSTs. -/
def demoNet (reader : List Char) (readerHeight writerHeight : Nat) : Net Nat where
  BlockNumber := fun s api =>
    if api = reader then (.ok readerHeight, s) else (.ok writerHeight, s)
  Post := fun s _ _ =>
    (.ok ⟨200, "\x7b\"jsonrpc\":\"2.0\",\"id\":1,\"result\" : \"0x".toList ++ fmtV s
        ++ "\"\x7d".toList⟩, s + 1)

/-- A network that answers every POST with the response `resp` and reports the height
`height` for every endpoint. -/
def fixedNet (height : Nat) (resp : Response) : Net Unit where
  BlockNumber := fun s _ => (.ok height, s)
  Post := fun s _ _ => (.ok resp, s)

/-- The network `demoNet`, except that the POST number `brokenAt` (counted from 0) is
answered with status 500 and the body `busy`. -/
def brokenNet (reader : List Char) (readerHeight writerHeight brokenAt : Nat) : Net Nat where
  BlockNumber := (demoNet reader readerHeight writerHeight).BlockNumber
  Post := fun s api body =>
    if s = brokenAt then (.ok ⟨500, "busy".toList⟩, s + 1)
    else (demoNet reader readerHeight writerHeight).Post s api body

/-- A network whose endpoints cannot be reached. -/
def deadNet : Net Unit where
  BlockNumber := fun s _ => (.error (.transport "connection refused".toList), s)
  Post := fun s _ _ => (.error (.transport "connection refused".toList), s)

/-! ## Searching strings -/

theorem hasPrefix_iff (s p : List Char) : HasPrefix s p = true ↔ p <+: s := by
  induction s generalizing p with
  | nil => cases p <;> simp [HasPrefix]
  | cons c s ih =>
    cases p with
    | nil => simp [HasPrefix]
    | cons d p =>
      simp only [HasPrefix, Bool.and_eq_true, beq_iff_eq, ih, List.cons_prefix_cons]
      constructor <;> rintro ⟨h1, h2⟩ <;> exact ⟨h1.symm, h2⟩

theorem index_isSome_iff (s p : List Char) : (Index s p).isSome = true ↔ p <:+: s := by
  induction s with
  | nil =>
    simp only [Index]
    split <;> rename_i h
    · simp [(hasPrefix_iff _ _).1 h |>.isInfix]
    · simp only [Option.isSome_none, Bool.false_eq_true, false_iff]
      intro hin
      exact h ((hasPrefix_iff _ _).2 (List.infix_nil.1 hin ▸ List.prefix_refl _))
  | cons c s ih =>
    simp only [Index]
    split <;> rename_i h
    · simp [(hasPrefix_iff _ _).1 h |>.isInfix]
    · rw [Option.isSome_map', ih, List.infix_cons_iff]
      constructor
      · exact Or.inr
      · rintro (h1 | h1)
        · exact absurd ((hasPrefix_iff _ _).2 h1) h
        · exact h1

theorem contains_iff (s p : List Char) : Contains s p = true ↔ p <:+: s :=
  index_isSome_iff s p

theorem index_eq_none_iff (s p : List Char) : Index s p = none ↔ ¬ p <:+: s := by
  rw [← index_isSome_iff, Option.not_isSome_iff_eq_none]

theorem split_of_not_infix (s sep : List Char) (h : ¬ sep <:+: s) : Split s sep = [s] := by
  have h1 := (index_eq_none_iff s sep).2 h
  unfold Split
  cases s.length <;> simp [genSplit, h1]

theorem index_prefix (p : List Char) :
    ∀ (s : List Char) (m : Nat), Index s p = some m → p <+: s.drop m := by
  intro s
  induction s with
  | nil =>
    intro m h
    simp only [Index] at h
    split at h
    · rename_i hp
      cases h
      exact (hasPrefix_iff _ _).1 hp
    · cases h
  | cons c s ih =>
    intro m h
    simp only [Index] at h
    split at h
    · rename_i hp
      cases h
      exact (hasPrefix_iff _ _).1 hp
    · rcases hi : Index s p with _ | m'
      · rw [hi] at h
        cases h
      · rw [hi] at h
        simp only [Option.map_some', Option.some.injEq] at h
        subst h
        exact ih m' hi

theorem index_append_first (p b : List Char) (hp : p ≠ []) :
    ∀ a : List Char, ¬ p <:+: a ++ p.dropLast → Index (a ++ p ++ b) p = some a.length := by
  intro a
  induction a with
  | nil =>
    intro _
    have h1 : HasPrefix (p ++ b) p = true := (hasPrefix_iff _ _).2 (List.prefix_append p b)
    cases p with
    | nil => exact absurd rfl hp
    | cons c p' =>
      simp only [List.nil_append, List.cons_append, List.length_nil] at h1 ⊢
      rw [Index, if_pos h1]
  | cons d a ih =>
    intro h
    have h2 : ¬ p <:+: a ++ p.dropLast := fun hin =>
      h (List.infix_cons_iff.2 (Or.inr hin))
    have h3 : HasPrefix (d :: (a ++ p ++ b)) p ≠ true := by
      intro hpre
      have hpre' : p <+: (d :: a) ++ p ++ b := (hasPrefix_iff _ _).1 hpre
      have hpre2 : (d :: a) ++ p.dropLast <+: (d :: a) ++ p ++ b := by
        rw [List.append_assoc]
        exact (List.prefix_append_right_inj _).2
          (List.IsPrefix.trans ( List.dropLast_prefix p) (List.prefix_append p b))
      have hlen : p.length ≤ ((d :: a) ++ p.dropLast).length := by
        have := List.length_pos.2 hp
        simp only [List.length_append, List.length_cons, List.length_dropLast]
        omega
      exact h (List.prefix_of_prefix_length_le hpre' hpre2 hlen).isInfix
    simp only [List.cons_append, List.length_cons]
    rw [Index, if_neg h3, ih h2]
    rfl

theorem marker_first (p : List Char) (h_p : ¬ resultMarker <:+: p)
    (h_end : ¬ "\"result\" : ".toList <:+ p) :
    ¬ resultMarker <:+: p ++ resultMarker.dropLast := by
  rintro ⟨x, y, h⟩
  rcases List.append_eq_append_iff.1 h with ⟨a', ha, _⟩ | ⟨c', hc, hm⟩
  · exact h_p ⟨x, a', ha.symm⟩
  · rcases List.append_eq_append_iff.1 hc with ⟨a2, hp2, hm2⟩ | ⟨c2, _, hc2⟩
    · have hlen : c'.length < 12 := by
        have := congrArg List.length hm
        simp only [List.length_append] at this
        have h11 : resultMarker.dropLast.length = 11 := by decide
        omega
      have e1 : resultMarker.drop (12 - c'.length) = c' := by
        have hl : a2.length = 12 - c'.length := by
          have := congrArg List.length hm2
          simp only [List.length_append] at this
          have h12 : resultMarker.length = 12 := by decide
          omega
        rw [← hl]
        conv_lhs => rw [hm2]
        exact List.drop_left a2 c'
      have e2 : "\"result\" : ".toList.take c'.length = c' := by
        have hd : "\"result\" : ".toList = resultMarker.dropLast := by decide
        rw [hd]
        conv_lhs => rw [hm]
        exact List.take_left c' y
      have key : ∀ k, k < 12 →
          resultMarker.drop (12 - k) = "\"result\" : ".toList.take k → k = 0 ∨ k = 1 := by
        decide
      rcases key c'.length hlen (e1.trans e2.symm) with h0 | h1
      · have hnil : c' = [] := List.length_eq_zero.1 h0
        subst hnil
        rw [List.append_nil] at hm2
        subst hm2
        exact h_p ⟨x, [], by rw [List.append_nil]; exact hp2.symm⟩
      · have ha2 : a2 = "\"result\" : ".toList := by
          have hl : a2.length = 11 := by
            have := congrArg List.length hm2
            simp only [List.length_append] at this
            have h12 : resultMarker.length = 12 := by decide
            omega
          have ht : resultMarker.take a2.length = a2 := by
            conv_lhs => rw [hm2]
            exact List.take_left a2 c'
          rw [hl] at ht
          rw [← ht]
          decide
        exact h_end ⟨x, by rw [hp2, ha2]⟩
    · have := congrArg List.length hc2
      have h12 : resultMarker.length = 12 := by decide
      have hlen := congrArg List.length hm
      have h11 : resultMarker.dropLast.length = 11 := by decide
      simp only [List.length_append] at this hlen
      omega

theorem genSplit_head (str r : List Char) (h_str : ¬ "\"".toList <:+: str) (n : Nat) :
    ∃ t, (genSplit resultMarker n (str ++ "\"".toList ++ r))[0]? = some (str ++ t) ∧
      (t = [] ∨ ∃ t', t = "\"".toList ++ t') := by
  have hwhole : ∃ t, str ++ "\"".toList ++ r = str ++ t ∧ (t = [] ∨ ∃ t', t = "\"".toList ++ t') :=
    ⟨"\"".toList ++ r, List.append_assoc _ _ _, Or.inr ⟨r, rfl⟩⟩
  cases n with
  | zero =>
    obtain ⟨t, ht, h⟩ := hwhole
    exact ⟨t, by rw [← ht]; simp only [genSplit, List.getElem?_cons_zero], h⟩
  | succ n =>
    rcases hi : Index (str ++ "\"".toList ++ r) resultMarker with _ | m
    · obtain ⟨t, ht, h⟩ := hwhole
      exact ⟨t, by rw [← ht]; simp only [genSplit, hi, List.getElem?_cons_zero], h⟩
    · have hpre := index_prefix resultMarker _ m hi
      have hge : str.length ≤ m := by
        by_contra hlt
        have hlt : m < str.length := Nat.lt_of_not_le hlt
        rw [List.append_assoc, List.drop_append_of_le_length (le_of_lt hlt)] at hpre
        have hq : "\"".toList <+: resultMarker := ⟨"result\" : \"".toList, by decide⟩
        have hq2 := hq.trans hpre
        have hne : str.drop m ≠ [] := by
          intro hnil
          have := congrArg List.length hnil
          simp only [List.length_drop, List.length_nil] at this
          omega
        obtain ⟨c, u, hcu⟩ := List.exists_cons_of_ne_nil hne
        rw [hcu] at hq2
        have hc : "\"".toList = [c] := by
          obtain ⟨z, hz⟩ := hq2
          have hz' : "\"".toList = [(Char.ofNat 34)] := by decide
          rw [hz'] at hz ⊢
          simp only [List.cons_append, List.nil_append, List.cons.injEq] at hz
          rw [hz.1]
        apply h_str
        rw [hc]
        have : [c] <+: str.drop m := by
          rw [hcu]
          exact ⟨u, rfl⟩
        exact this.isInfix.trans (List.drop_suffix m str).isInfix
      refine ⟨(("\"".toList ++ r).take (m - str.length)), ?_, ?_⟩
      · simp only [genSplit, hi, List.getElem?_cons_zero, Option.some.injEq]
        rw [List.append_assoc, List.take_append_eq_append_take, List.take_of_length_le hge]
      · rcases Nat.eq_zero_or_pos (m - str.length) with h0 | hpos
        · left
          rw [h0]
          rfl
        · right
          obtain ⟨k, hk⟩ : ∃ k, m - str.length = k + 1 := ⟨m - str.length - 1, by omega⟩
          rw [hk]
          exact ⟨r.take k, rfl⟩

theorem split_quote_head (str t : List Char) (h_str : ¬ "\"".toList <:+: str)
    (ht : t = [] ∨ ∃ t', t = "\"".toList ++ t') :
    (Split (str ++ t) "\"".toList)[0]? = some str := by
  rcases ht with rfl | ⟨t', rfl⟩
  · rw [List.append_nil, split_of_not_infix _ _ h_str]
    rfl
  · have hi : Index (str ++ "\"".toList ++ t') "\"".toList = some str.length :=
      index_append_first "\"".toList t' (by decide) str (by
        have : ("\"".toList).dropLast = [] := by decide
        rw [this, List.append_nil]
        exact h_str)
    unfold Split
    obtain ⟨n, hn⟩ : ∃ n, (str ++ ("\"".toList ++ t')).length = n + 1 :=
      ⟨str.length + t'.length, by
        have h1 : ("\"".toList).length = 1 := by decide
        simp only [List.length_append, h1]
        omega⟩
    rw [hn, ← List.append_assoc]
    simp only [genSplit, hi, List.getElem?_cons_zero, Option.some.injEq]
    rw [List.append_assoc]
    exact List.take_left str _

theorem split_marker_second (p str r : List Char) (h_p : ¬ resultMarker <:+: p)
    (h_end : ¬ "\"result\" : ".toList <:+ p) (h_str : ¬ "\"".toList <:+: str) :
    ∃ t, (Split (p ++ resultMarker ++ str ++ "\"".toList ++ r) resultMarker)[1]? = some (str ++ t) ∧
      (t = [] ∨ ∃ t', t = "\"".toList ++ t') := by
  have hbody : p ++ resultMarker ++ str ++ "\"".toList ++ r =
      p ++ resultMarker ++ (str ++ "\"".toList ++ r) := by
    simp only [List.append_assoc]
  have hi : Index (p ++ resultMarker ++ (str ++ "\"".toList ++ r)) resultMarker = some p.length :=
    index_append_first resultMarker _ (by decide) p (marker_first p h_p h_end)
  obtain ⟨n, hn⟩ : ∃ n, (p ++ resultMarker ++ (str ++ "\"".toList ++ r)).length = n + 1 :=
    ⟨p.length + 11 + (str ++ "\"".toList ++ r).length, by
      have h12 : resultMarker.length = 12 := by decide
      simp only [List.length_append, h12]
      omega⟩
  obtain ⟨t, ht, h⟩ := genSplit_head str r h_str n
  refine ⟨t, ?_, h⟩
  rw [hbody]
  unfold Split
  rw [hn]
  simp only [genSplit, hi, List.getElem?_cons_succ]
  have hdrop : (p ++ resultMarker ++ (str ++ "\"".toList ++ r)).drop
      (p.length + resultMarker.length) = str ++ "\"".toList ++ r := by
    rw [← List.length_append]
    exact List.drop_left _ _
  rw [hdrop]
  exact ht

/-! ## The three RPC functions -/

theorem classify_rejects_iff (resp : Response) :
    (resp.StatusCode ≠ 200 || Contains resp.Body "error".toList) = true ↔
      (resp.StatusCode ≠ 200 ∨ "error".toList <:+: resp.Body) := by
  simp [contains_iff]

/-- C8: for a response received without a transport error, `importTrustedBlock` returns a
non-nil error exactly when the status code is not 200 or the body contains `error`, and
`getTrustedByNumber` and `getTrustedByHash` return a non-nil error whenever the status
code is not 200 or the body contains `error`. -/
theorem response_classification {σ : Type} (net : Net σ) (s s1 s2 s3 : σ)
    (readerAPI writerAPI block hash : List Char) (num : Nat) (resp : Response)
    (h_import : net.Post s readerAPI (importRequest block) = (.ok resp, s1))
    (h_number : net.Post s writerAPI (byNumberRequest num) = (.ok resp, s2))
    (h_hash : net.Post s writerAPI (byHashRequest hash) = (.ok resp, s3)) :
    ((∃ e, (importTrustedBlock net s readerAPI block).1 = .err e) ↔
        (resp.StatusCode ≠ 200 ∨ "error".toList <:+: resp.Body)) ∧
    ((resp.StatusCode ≠ 200 ∨ "error".toList <:+: resp.Body) →
        ∃ e, (getTrustedByNumber net s writerAPI num).1 = .err e) ∧
    ((resp.StatusCode ≠ 200 ∨ "error".toList <:+: resp.Body) →
        ∃ e, (getTrustedByHash net s writerAPI hash).1 = .err e) := by
  refine ⟨?_, ?_, ?_⟩
  · rw [← classify_rejects_iff]
    unfold importTrustedBlock
    rw [h_import]
    simp only
    split <;> rename_i h
    · exact ⟨fun _ => h, fun _ => ⟨_, rfl⟩⟩
    · exact ⟨fun ⟨e, he⟩ => (by cases he), fun h1 => absurd h1 h⟩
  · intro h
    rw [← classify_rejects_iff] at h
    unfold getTrustedByNumber
    rw [h_number]
    simp only [h, if_true]
    exact ⟨_, rfl⟩
  · intro h
    rw [← classify_rejects_iff] at h
    unfold getTrustedByHash
    rw [h_hash]
    simp only [h, if_true]
    exact ⟨_, rfl⟩

/-- The theorem `response_classification` on a network that answers status 500. -/
theorem response_classification_witness :
    ((∃ e, (importTrustedBlock (fixedNet 0 ⟨500, "busy".toList⟩) () [] []).1 = .err e) ↔
        ((500 : Nat) ≠ 200 ∨ "error".toList <:+: "busy".toList)) ∧
    (((500 : Nat) ≠ 200 ∨ "error".toList <:+: "busy".toList) →
        ∃ e, (getTrustedByNumber (fixedNet 0 ⟨500, "busy".toList⟩) () [] 7).1 = .err e) ∧
    (((500 : Nat) ≠ 200 ∨ "error".toList <:+: "busy".toList) →
        ∃ e, (getTrustedByHash (fixedNet 0 ⟨500, "busy".toList⟩) () [] []).1 = .err e) :=
  response_classification (fixedNet 0 ⟨500, "busy".toList⟩) () () () () [] [] [] [] 7
    ⟨500, "busy".toList⟩ rfl rfl rfl

/-- C4: a response with status 200 whose body contains neither `error` nor the marker
`"result" : "` makes `getTrustedByNumber` and `getTrustedByHash` panic with an index out
of range; neither returns an error. -/
theorem getTrusted_panics_without_marker {σ : Type} (net : Net σ) (s s1 s2 : σ)
    (writerAPI hash body : List Char) (num : Nat)
    (h_number : net.Post s writerAPI (byNumberRequest num) = (.ok ⟨200, body⟩, s1))
    (h_hash : net.Post s writerAPI (byHashRequest hash) = (.ok ⟨200, body⟩, s2))
    (h_error : ¬ "error".toList <:+: body) (h_marker : ¬ resultMarker <:+: body) :
    getTrustedByNumber net s writerAPI num = (.panic, s1) ∧
      getTrustedByHash net s writerAPI hash = (.panic, s2) := by
  have hc : (((200 : Nat) ≠ 200 || Contains body "error".toList) = true) ↔ False := by
    rw [classify_rejects_iff ⟨200, body⟩]
    exact ⟨fun h => h.elim (fun h1 => h1 rfl) h_error, False.elim⟩
  constructor
  · unfold getTrustedByNumber
    rw [h_number]
    simp only [hc, if_false, split_of_not_infix _ _ h_marker]
    rfl
  · unfold getTrustedByHash
    rw [h_hash]
    simp only [hc, if_false, split_of_not_infix _ _ h_marker]
    rfl

/-- The theorem `getTrusted_panics_without_marker` on the body
`\x7b"jsonrpc":"2.0","id":1,"result":"0xf901"\x7d`, which has no blanks around the colon. -/
theorem getTrusted_panics_without_marker_witness :
    getTrustedByNumber
        (fixedNet 0 ⟨200, "\x7b\"jsonrpc\":\"2.0\",\"id\":1,\"result\":\"0xf901\"\x7d".toList⟩)
        () [] 7 = (.panic, ()) ∧
      getTrustedByHash
        (fixedNet 0 ⟨200, "\x7b\"jsonrpc\":\"2.0\",\"id\":1,\"result\":\"0xf901\"\x7d".toList⟩)
        () [] [] = (.panic, ()) :=
  getTrusted_panics_without_marker
    (fixedNet 0 ⟨200, "\x7b\"jsonrpc\":\"2.0\",\"id\":1,\"result\":\"0xf901\"\x7d".toList⟩)
    () () () [] [] _ 7 rfl rfl (by decide) (by decide)

/-- C9: for a response with status 200 whose body does not contain `error` and is
`p ++ "result" : " ++ str ++ " ++ r` (the marker, then `str`, then a double quote), where `p`
neither contains the marker nor ends with `"result" : ` (the marker without its last
quote) and `str` contains no double quote, `getTrustedByNumber` and `getTrustedByHash`
return exactly `str` with a `nil` error. -/
theorem result_extraction {σ : Type} (net : Net σ) (s s1 s2 : σ)
    (writerAPI hash : List Char) (num : Nat) (p str r : List Char)
    (h_number : net.Post s writerAPI (byNumberRequest num) =
      (.ok ⟨200, p ++ resultMarker ++ str ++ "\"".toList ++ r⟩, s1))
    (h_hash : net.Post s writerAPI (byHashRequest hash) =
      (.ok ⟨200, p ++ resultMarker ++ str ++ "\"".toList ++ r⟩, s2))
    (h_error : ¬ "error".toList <:+: p ++ resultMarker ++ str ++ "\"".toList ++ r)
    (h_p : ¬ resultMarker <:+: p) (h_end : ¬ "\"result\" : ".toList <:+ p)
    (h_str : ¬ "\"".toList <:+: str) :
    getTrustedByNumber net s writerAPI num = (.ok str, s1) ∧
      getTrustedByHash net s writerAPI hash = (.ok str, s2) := by
  have hc : (((200 : Nat) ≠ 200 ||
      Contains (p ++ resultMarker ++ str ++ "\"".toList ++ r) "error".toList) = true) ↔ False := by
    rw [classify_rejects_iff ⟨200, _⟩]
    exact ⟨fun h => h.elim (fun h1 => h1 rfl) h_error, False.elim⟩
  obtain ⟨t, h1, ht⟩ := split_marker_second p str r h_p h_end h_str
  have h0 := split_quote_head str t h_str ht
  constructor
  · unfold getTrustedByNumber
    rw [h_number]
    simp only [hc, if_false, h1, h0]
  · unfold getTrustedByHash
    rw [h_hash]
    simp only [hc, if_false, h1, h0]

/-- The theorem `result_extraction` on the body
`\x7b"jsonrpc":"2.0","id":1,"result" : "0xf901"\x7d`. -/
theorem result_extraction_witness :
    getTrustedByNumber
        (fixedNet 0 ⟨200, "\x7b\"jsonrpc\":\"2.0\",\"id\":1,".toList ++ resultMarker
          ++ "0xf901".toList ++ "\"".toList ++ "\x7d".toList⟩) () [] 7 =
        (.ok "0xf901".toList, ()) ∧
      getTrustedByHash
        (fixedNet 0 ⟨200, "\x7b\"jsonrpc\":\"2.0\",\"id\":1,".toList ++ resultMarker
          ++ "0xf901".toList ++ "\"".toList ++ "\x7d".toList⟩) () [] [] =
        (.ok "0xf901".toList, ()) :=
  result_extraction
    (fixedNet 0 ⟨200, "\x7b\"jsonrpc\":\"2.0\",\"id\":1,".toList ++ resultMarker
      ++ "0xf901".toList ++ "\"".toList ++ "\x7d".toList⟩) () () () [] [] 7
    "\x7b\"jsonrpc\":\"2.0\",\"id\":1,".toList "0xf901".toList "\x7d".toList rfl rfl
    (by decide) (by decide) (by decide) (by decide)

/-- C9, as first stated, fails when `p` ends with the marker without its last quote: the
body `"result" : "result" : "abc"` is `p ++ "result" : " ++ abc ++ "` for
`p = "result" : `, which does not contain the marker, `abc` contains no double quote and
the body does not contain `error`, yet `getTrustedByNumber` and `getTrustedByHash`
return `result`, the text after the first occurrence of the marker, and not `abc`. -/
theorem result_extraction_overlap :
    "\"result\" : \"result\" : \"abc\"".toList =
        "\"result\" : ".toList ++ resultMarker ++ "abc".toList ++ "\"".toList ++ [] ∧
      ¬ resultMarker <:+: "\"result\" : ".toList ∧
      ¬ "\"".toList <:+: "abc".toList ∧
      ¬ "error".toList <:+: "\"result\" : \"result\" : \"abc\"".toList ∧
      getTrustedByNumber (fixedNet 0 ⟨200, "\"result\" : \"result\" : \"abc\"".toList⟩) () [] 7 =
        (.ok "result".toList, ()) ∧
      getTrustedByHash (fixedNet 0 ⟨200, "\"result\" : \"result\" : \"abc\"".toList⟩) () [] [] =
        (.ok "result".toList, ()) ∧
      "result".toList ≠ "abc".toList := by
  decide

/-! ## Single mode and target mode -/

theorem relayBlock_of_ok {σ : Type} (net : Net σ) (s s1 s2 : σ)
    (writerAPI readerAPI b : List Char) (num : Nat)
    (h_fetch : getTrustedByNumber net s writerAPI num = (.ok b, s1))
    (h_import : importTrustedBlock net s1 readerAPI b = (.ok (), s2)) :
    relayBlock net s writerAPI readerAPI num =
      ([.getTrustedByNumber writerAPI num (.ok b), .importTrustedBlock readerAPI b (.ok ())],
        .next s2) := by
  unfold relayBlock
  rw [h_fetch]
  simp only
  rw [h_import]

/-- C3: in single mode, when the writer returns the block `b` for height `N` and the import
succeeds, `start` makes one `getTrustedByNumber` call for `N`, then one
`importTrustedBlock` call carrying `b`, no `getCurrentBlockNumber` call, and returns
`nil`, whatever `target` is. -/
theorem single_mode {σ : Type} (fuel : Nat) (net : Net σ) (s : σ)
    (writerAPI readerAPI b : List Char) (target N : Nat) (hN : N ≠ 0)
    (h_fetch : (getTrustedByNumber net s writerAPI N).1 = .ok b)
    (h_import :
      (importTrustedBlock net (getTrustedByNumber net s writerAPI N).2 readerAPI b).1 = .ok ()) :
    (start fuel net s writerAPI readerAPI target N).calls =
        [.getTrustedByNumber writerAPI N (.ok b), .importTrustedBlock readerAPI b (.ok ())] ∧
      (∀ api ret,
        Event.getCurrentBlockNumber api ret ∉ (start fuel net s writerAPI readerAPI target N).events) ∧
      (start fuel net s writerAPI readerAPI target N).outcome = .returned none := by
  have h := relayBlock_of_ok net s _ _ writerAPI readerAPI b N (Prod.ext h_fetch rfl)
    (Prod.ext h_import rfl)
  unfold start
  simp only [hN, ne_eq, not_false_eq_true, if_true, h]
  simp [Run.calls, Event.isCall]

/-- The theorem `single_mode` for block 7 and target 3. -/
theorem single_mode_witness :
    (start 0 (demoNet "reader".toList 1 9) 0 "writer".toList "reader".toList 3 7).calls =
        [.getTrustedByNumber "writer".toList 7 (.ok "0x0".toList),
          .importTrustedBlock "reader".toList "0x0".toList (.ok ())] ∧
      (∀ api ret, Event.getCurrentBlockNumber api ret ∉
        (start 0 (demoNet "reader".toList 1 9) 0 "writer".toList "reader".toList 3 7).events) ∧
      (start 0 (demoNet "reader".toList 1 9) 0 "writer".toList "reader".toList 3 7).outcome =
        .returned none :=
  single_mode 0 (demoNet "reader".toList 1 9) 0 "writer".toList "reader".toList "0x0".toList 3 7
    (by decide) (by decide) (by decide)

/-- C6: in target mode with the reader at or past the target, when both height queries
succeed, `start` makes no `getTrustedByNumber` and no `importTrustedBlock` call and
returns `nil`. -/
theorem target_mode_reached {σ : Type} (fuel : Nat) (net : Net σ) (s : σ)
    (writerAPI readerAPI : List Char) (T R0 W : Nat) (hT : T ≠ 0) (hR : T ≤ R0)
    (h_reader : (getCurrentBlockNumber net s readerAPI).1 = .ok R0)
    (h_writer :
      (getCurrentBlockNumber net (getCurrentBlockNumber net s readerAPI).2 writerAPI).1 = .ok W) :
    (start fuel net s writerAPI readerAPI T 0).calls =
        [.getCurrentBlockNumber readerAPI (.ok R0), .getCurrentBlockNumber writerAPI (.ok W)] ∧
      (start fuel net s writerAPI readerAPI T 0).outcome = .returned none := by
  have h1 : getCurrentBlockNumber net s readerAPI = (.ok R0, _) := Prod.ext h_reader rfl
  have h2 : getCurrentBlockNumber net _ writerAPI = (.ok W, _) := Prod.ext h_writer rfl
  have hle : ¬ T > R0 := Nat.not_lt.2 hR
  unfold start
  rw [h1]
  simp only
  rw [h2]
  cases fuel <;> simp [hT, targetLoop, hle, Run.calls, Run.after, Event.isCall]

/-- The theorem `target_mode_reached` for target 3 and a reader at height 5. -/
theorem target_mode_reached_witness :
    (start 0 (demoNet "reader".toList 5 9) 0 "writer".toList "reader".toList 3 0).calls =
        [.getCurrentBlockNumber "reader".toList (.ok 5),
          .getCurrentBlockNumber "writer".toList (.ok 9)] ∧
      (start 0 (demoNet "reader".toList 5 9) 0 "writer".toList "reader".toList 3 0).outcome =
        .returned none :=
  target_mode_reached 0 (demoNet "reader".toList 5 9) 0 "writer".toList "reader".toList 3 5 9
    (by decide) (by decide) (by decide) (by decide)

theorem add64_one_of_lt (a b : Nat) (h : a < b) (hb : b < uint64Size) : add64 a 1 = a + 1 := by
  unfold add64
  exact Nat.mod_eq_of_lt (by omega)

theorem sub64_of_le (a b : Nat) (h : b ≤ a) (ha : a < uint64Size) : sub64 a b = a - b := by
  unfold sub64
  rw [Nat.mod_eq_of_lt ha, Nat.mod_eq_of_lt (lt_of_le_of_lt h ha)]
  have h1 : a + (uint64Size - b) = (a - b) + uint64Size := by omega
  rw [h1, Nat.add_mod_right]
  exact Nat.mod_eq_of_lt (by omega)

theorem getCurrentBlockNumber_lt {σ : Type} (net : Net σ) (s : σ) (api : List Char) (n : Nat)
    (h : (getCurrentBlockNumber net s api).1 = .ok n) : n < uint64Size := by
  unfold getCurrentBlockNumber at h
  split at h
  · cases h
  · simp only [Ret.ok.injEq] at h
    subst h
    exact Nat.mod_lt _ (by decide)

theorem relayBlock_succeeded {σ : Type} (net : Net σ) (s : σ) (writerAPI readerAPI : List Char)
    (num : Nat)
    (h : ∀ e ∈ (relayBlock net s writerAPI readerAPI num).1, Event.succeeded e = true) :
    ∃ b s', relayBlock net s writerAPI readerAPI num =
      ([.getTrustedByNumber writerAPI num (.ok b), .importTrustedBlock readerAPI b (.ok ())],
        .next s') := by
  unfold relayBlock at h ⊢
  split at h
  · simp [Event.succeeded] at h
  · simp [Event.succeeded] at h
  · rename_i block s1 hf
    split at h
    · simp [Event.succeeded] at h
    · simp [Event.succeeded] at h
    · rename_i s2 hi
      exact ⟨block, s2, rfl⟩

theorem relayCalls_length (writerAPI readerAPI : List Char) :
    ∀ (blocks : List (List Char)) (R : Nat),
      (relayCalls writerAPI readerAPI R blocks).length = 2 * blocks.length := by
  intro blocks
  induction blocks with
  | nil =>
    intro R
    rfl
  | cons b blocks ih =>
    intro R
    simp only [relayCalls, List.length_cons, ih]
    omega

theorem relayCalls_pair (writerAPI readerAPI : List Char) :
    ∀ (blocks : List (List Char)) (R k : Nat) (b : List Char), blocks[k]? = some b →
      (relayCalls writerAPI readerAPI R blocks)[2 * k]? =
          some (.getTrustedByNumber writerAPI (R + (k + 1)) (.ok b)) ∧
        (relayCalls writerAPI readerAPI R blocks)[2 * k + 1]? =
          some (.importTrustedBlock readerAPI b (.ok ())) := by
  intro blocks
  induction blocks with
  | nil =>
    intro R k b h
    simp at h
  | cons b0 blocks ih =>
    intro R k b h
    cases k with
    | zero =>
      simp only [List.getElem?_cons_zero, Option.some.injEq] at h
      subst h
      simp [relayCalls]
    | succ k =>
      simp only [List.getElem?_cons_succ] at h
      obtain ⟨h1, h2⟩ := ih (R + 1) k b h
      have e1 : 2 * (k + 1) = 2 * k + 1 + 1 := by omega
      have e2 : R + 1 + (k + 1) = R + (k + 1 + 1) := by omega
      rw [e2] at h1
      simp only [relayCalls, e1, List.getElem?_cons_succ]
      exact ⟨h1, h2⟩

theorem targetLoop_all_ok {σ : Type} (net : Net σ) (writerAPI readerAPI : List Char) (T : Nat)
    (hT : T < uint64Size) :
    ∀ (n fuel : Nat) (s : σ) (R : Nat), R + n = T → n ≤ fuel →
      (∀ e ∈ (targetLoop net writerAPI readerAPI T fuel s R).events, Event.succeeded e = true) →
      ∃ blocks : List (List Char), blocks.length = n ∧
        (targetLoop net writerAPI readerAPI T fuel s R).calls =
          relayCalls writerAPI readerAPI R blocks ∧
        (targetLoop net writerAPI readerAPI T fuel s R).outcome = .returned none := by
  intro n
  induction n with
  | zero =>
    intro fuel s R hR _ _
    have hle : ¬ T > R := by omega
    refine ⟨[], rfl, ?_, ?_⟩ <;>
      cases fuel <;> simp [targetLoop, hle, Run.calls, Event.isCall, relayCalls]
  | succ n ih =>
    intro fuel s R hR hfuel hok
    have hlt : T > R := by omega
    obtain ⟨fuel, rfl⟩ : ∃ f, fuel = f + 1 := ⟨fuel - 1, by omega⟩
    have hadd : add64 R 1 = R + 1 := add64_one_of_lt R T hlt hT
    simp only [targetLoop, hlt, if_true, hadd] at hok ⊢
    have hes : ∀ e ∈ (relayBlock net s writerAPI readerAPI (R + 1)).1,
        Event.succeeded e = true := by
      intro e he
      apply hok
      split
      · rename_i es o heq
        rw [heq] at he
        exact he
      · rename_i es s' heq
        rw [heq] at he
        simp [Run.after, he]
    obtain ⟨b, s', hrb⟩ := relayBlock_succeeded net s writerAPI readerAPI (R + 1) hes
    rw [hrb] at hok ⊢
    simp only at hok ⊢
    obtain ⟨blocks, hlen, hcalls, hout⟩ := ih fuel s' (R + 1) (by omega) (by omega) (by
      intro e he
      apply hok
      simp [Run.after, he])
    refine ⟨b :: blocks, by simp [hlen], ?_, ?_⟩
    · simp only [Run.calls] at hcalls
      simp [Run.calls, Run.after, Event.isCall, relayCalls, hcalls]
    · simpa [Run.after] using hout

/-- C1: in target mode with the reader at `R0` below the target `T`, when every call
succeeds, `start` reads the two heights, then makes exactly `T - R0` pairs of calls
`getTrustedByNumber(writerAPI, R0 + k)`, `importTrustedBlock(readerAPI, block)` for
`k = 1, ..., T - R0`, each import carrying the block its fetch returned, makes no other
call, and returns `nil`. -/
theorem target_mode_sync {σ : Type} (fuel : Nat) (net : Net σ) (s : σ)
    (writerAPI readerAPI : List Char) (T R0 : Nat) (hT : T < 2 ^ 64) (hR : R0 < T)
    (h_fuel : T - R0 ≤ fuel)
    (h_reader : (getCurrentBlockNumber net s readerAPI).1 = .ok R0)
    (h_ok : ∀ e ∈ (start fuel net s writerAPI readerAPI T 0).events, Event.succeeded e = true) :
    ∃ (W : Nat) (blocks : List (List Char)), blocks.length = T - R0 ∧
      (start fuel net s writerAPI readerAPI T 0).calls =
        [.getCurrentBlockNumber readerAPI (.ok R0), .getCurrentBlockNumber writerAPI (.ok W)]
          ++ relayCalls writerAPI readerAPI R0 blocks ∧
      (start fuel net s writerAPI readerAPI T 0).outcome = .returned none := by
  have h1 : getCurrentBlockNumber net s readerAPI = (.ok R0, _) := Prod.ext h_reader rfl
  have hT0 : T ≠ 0 := by omega
  unfold start at h_ok ⊢
  rw [h1] at h_ok ⊢
  simp only [ne_eq, not_true_eq_false, if_false] at h_ok ⊢
  split at h_ok
  · simp [Event.succeeded] at h_ok
  · simp [Event.succeeded] at h_ok
  · rename_i W s2 h2
    simp only [hT0, not_false_eq_true, if_true] at h_ok ⊢
    obtain ⟨blocks, hlen, hcalls, hout⟩ :=
      targetLoop_all_ok net writerAPI readerAPI T hT (T - R0) fuel s2 R0 (by omega) h_fuel (by
        intro e he
        apply h_ok
        simp [Run.after, he])
    refine ⟨W, blocks, hlen, ?_, ?_⟩
    · simp only [Run.calls] at hcalls
      simp [Run.calls, Run.after, Event.isCall, hcalls]
    · simpa [Run.after] using hout

/-- The theorem `target_mode_sync` for target 4 and a reader at height 1: three pairs,
for the heights 2, 3 and 4. -/
theorem target_mode_sync_witness :
    ∃ (W : Nat) (blocks : List (List Char)), blocks.length = 4 - 1 ∧
      (start 3 (demoNet "reader".toList 1 9) 0 "writer".toList "reader".toList 4 0).calls =
        [.getCurrentBlockNumber "reader".toList (.ok 1),
          .getCurrentBlockNumber "writer".toList (.ok W)]
          ++ relayCalls "writer".toList "reader".toList 1 blocks ∧
      (start 3 (demoNet "reader".toList 1 9) 0 "writer".toList "reader".toList 4 0).outcome =
        .returned none :=
  target_mode_sync 3 (demoNet "reader".toList 1 9) 0 "writer".toList "reader".toList 4 1
    (by decide) (by decide) (by decide) (by decide) (by decide)

/-! ## Continuous mode -/

theorem relayBlock_fetch {σ : Type} (net : Net σ) (s : σ) (writerAPI readerAPI : List Char)
    (num : Nat) (api : List Char) (n : Nat) (ret : Ret (List Char))
    (h : Event.getTrustedByNumber api n ret ∈ (relayBlock net s writerAPI readerAPI num).1) :
    n = num := by
  unfold relayBlock at h
  split at h
  · simp only [List.mem_singleton, Event.getTrustedByNumber.injEq] at h
    exact h.2.1
  · simp only [List.mem_singleton, Event.getTrustedByNumber.injEq] at h
    exact h.2.1
  · split at h <;>
      simp only [List.mem_cons, Event.getTrustedByNumber.injEq, reduceCtorEq, List.not_mem_nil,
        or_false] at h <;>
      exact h.2.1

theorem innerLoop_margin {σ : Type} (net : Net σ) (writerAPI readerAPI : List Char) (W : Nat)
    (hW : W < uint64Size) :
    ∀ (fuel : Nat) (s : σ) (R : Nat), R ≤ W →
      ∀ (api : List Char) (n : Nat) (ret : Ret (List Char)),
        Event.getTrustedByNumber api n ret ∈ (innerLoop net writerAPI readerAPI W fuel s R).1 →
          n + 256 ≤ W := by
  intro fuel
  induction fuel with
  | zero =>
    intro s R _ api n ret h
    simp only [innerLoop] at h
    split at h <;> simp at h
  | succ fuel ih =>
    intro s R hR api n ret h
    simp only [innerLoop] at h
    split at h
    · rename_i hgt
      rw [sub64_of_le W R hR hW] at hgt
      have hadd : add64 R 1 = R + 1 := add64_one_of_lt R W (by omega) hW
      rw [hadd] at h
      have hf := relayBlock_fetch net s writerAPI readerAPI (R + 1) api n ret
      rcases hrb : relayBlock net s writerAPI readerAPI (R + 1) with ⟨es, step⟩
      rw [hrb] at h hf
      cases step with
      | stop o =>
        have := hf h
        omega
      | next s' =>
        simp only [List.mem_append, List.mem_singleton, reduceCtorEq, or_false] at h
        rcases h with h | h
        · have := hf h
          omega
        · exact ih s' (R + 1) (by omega) api n ret h
    · simp at h

/-- C2: with the writer at height 0 and the reader at height 1 the difference
`writerNumber-readerNumber` wraps to `2 ^ 64 - 1`, and `start` in continuous mode
fetches and imports block 2, although `2 + 256` is more than the writer height. -/
theorem continuous_margin_broken :
    (start 1 (demoNet "reader".toList 1 0) 0 "writer".toList "reader".toList 0 0).events.take 5 =
        [.getCurrentBlockNumber "reader".toList (.ok 1),
          .getCurrentBlockNumber "writer".toList (.ok 0),
          .enter .continuous,
          .getTrustedByNumber "writer".toList 2 (.ok "0x0".toList),
          .importTrustedBlock "reader".toList "0x0".toList (.ok ())] ∧
      sub64 0 1 = 2 ^ 64 - 1 ∧ ¬ (2 + 256 ≤ 0) := by
  decide

theorem innerLoop_all_ok {σ : Type} (net : Net σ) (writerAPI readerAPI : List Char) (W : Nat)
    (hW : W < uint64Size) :
    ∀ (n fuel : Nat) (s : σ) (R : Nat), R + n + 256 = W → n ≤ fuel →
      (∀ e ∈ (innerLoop net writerAPI readerAPI W fuel s R).1, Event.succeeded e = true) →
      ∃ (blocks : List (List Char)) (s' : σ), blocks.length = n ∧
        (innerLoop net writerAPI readerAPI W fuel s R).1.filter Event.isCall =
          relayCalls writerAPI readerAPI R blocks ∧
        (innerLoop net writerAPI readerAPI W fuel s R).2 = .next (s', R + n) := by
  intro n
  induction n with
  | zero =>
    intro fuel s R hR _ _
    have hle : ¬ sub64 W R > 256 := by
      rw [sub64_of_le W R (by omega) hW]
      omega
    refine ⟨[], s, rfl, ?_, ?_⟩ <;> cases fuel <;> simp [innerLoop, hle, relayCalls]
  | succ n ih =>
    intro fuel s R hR hfuel hok
    have hgt : sub64 W R > 256 := by
      rw [sub64_of_le W R (by omega) hW]
      omega
    obtain ⟨fuel, rfl⟩ : ∃ f, fuel = f + 1 := ⟨fuel - 1, by omega⟩
    have hadd : add64 R 1 = R + 1 := add64_one_of_lt R W (by omega) hW
    simp only [innerLoop, hgt, if_true, hadd] at hok ⊢
    have hes : ∀ e ∈ (relayBlock net s writerAPI readerAPI (R + 1)).1,
        Event.succeeded e = true := by
      intro e he
      apply hok
      split
      · rename_i es o heq
        rw [heq] at he
        exact he
      · rename_i es s' heq
        rw [heq] at he
        simp [he]
    obtain ⟨b, s', hrb⟩ := relayBlock_succeeded net s writerAPI readerAPI (R + 1) hes
    rw [hrb] at hok ⊢
    simp only at hok ⊢
    obtain ⟨blocks, s3, hlen, hcalls, hnext⟩ := ih fuel s' (R + 1) (by omega) (by omega) (by
      intro e he
      apply hok
      simp [he])
    refine ⟨b :: blocks, s3, by simp [hlen], ?_, ?_⟩
    · simp [Event.isCall, relayCalls, hcalls]
    · rw [hnext]
      congr 2
      omega

/-- C5: in continuous mode with the writer at `W`, the reader at `R`, `R <= W` and
`W - R > 256`, when every call of the first inner loop succeeds, that loop makes exactly
`W - R - 256` pairs of calls `getTrustedByNumber`, `importTrustedBlock` for the heights
`R + 1, ..., W - 256` in order, leaves the reader counter at `W - 256`, at most 256 below
the writer, and the next call of `start` is `getCurrentBlockNumber` on the writer. -/
theorem first_drain {σ : Type} (fuel : Nat) (net : Net σ) (s : σ)
    (writerAPI readerAPI : List Char) (W R : Nat) (hRW : R ≤ W) (h_gap : W - R > 256)
    (h_fuel : W - R - 256 ≤ fuel)
    (h_reader : (getCurrentBlockNumber net s readerAPI).1 = .ok R)
    (h_writer :
      (getCurrentBlockNumber net (getCurrentBlockNumber net s readerAPI).2 writerAPI).1 = .ok W)
    (h_ok : ∀ e ∈ (innerLoop net writerAPI readerAPI W fuel
        (getCurrentBlockNumber net (getCurrentBlockNumber net s readerAPI).2 writerAPI).2 R).1,
      Event.succeeded e = true) :
    ∃ (blocks : List (List Char)) (s3 : σ) (ret : Ret Nat) (rest : List Event),
      blocks.length = W - R - 256 ∧
      (innerLoop net writerAPI readerAPI W fuel
        (getCurrentBlockNumber net (getCurrentBlockNumber net s readerAPI).2 writerAPI).2 R).1.filter
          Event.isCall = relayCalls writerAPI readerAPI R blocks ∧
      (innerLoop net writerAPI readerAPI W fuel
        (getCurrentBlockNumber net (getCurrentBlockNumber net s readerAPI).2 writerAPI).2 R).2 =
          .next (s3, W - 256) ∧
      sub64 W (W - 256) ≤ 256 ∧
      (start fuel net s writerAPI readerAPI 0 0).calls =
        [.getCurrentBlockNumber readerAPI (.ok R), .getCurrentBlockNumber writerAPI (.ok W)]
          ++ relayCalls writerAPI readerAPI R blocks
          ++ .getCurrentBlockNumber writerAPI ret :: rest := by
  have hW : W < uint64Size := getCurrentBlockNumber_lt net _ writerAPI W h_writer
  rcases h1 : getCurrentBlockNumber net s readerAPI with ⟨r1, s1⟩
  rw [h1] at h_reader h_writer h_ok
  simp only at h_reader h_writer h_ok
  subst h_reader
  rcases h2 : getCurrentBlockNumber net s1 writerAPI with ⟨r2, s2⟩
  rw [h2] at h_writer h_ok
  simp only at h_writer h_ok
  subst h_writer
  simp only
  obtain ⟨blocks, s3, hlen, hcalls, hnext⟩ :=
    innerLoop_all_ok net writerAPI readerAPI W hW (W - R - 256) fuel s2 R (by omega) h_fuel h_ok
  have hRn : R + (W - R - 256) = W - 256 := by omega
  rw [hRn] at hnext
  have hsub : sub64 W (W - 256) ≤ 256 := by
    rw [sub64_of_le W (W - 256) (by omega) hW]
    omega
  obtain ⟨fuel, rfl⟩ : ∃ f, fuel = f + 1 := ⟨fuel - 1, by omega⟩
  have hin : innerLoop net writerAPI readerAPI W (fuel + 1) s2 R =
      ((innerLoop net writerAPI readerAPI W (fuel + 1) s2 R).1, .next (s3, W - 256)) :=
    Prod.ext rfl hnext
  have hstart : ∃ ret rest, (start (fuel + 1) net s writerAPI readerAPI 0 0).calls =
      [.getCurrentBlockNumber readerAPI (.ok R), .getCurrentBlockNumber writerAPI (.ok W)]
        ++ relayCalls writerAPI readerAPI R blocks
        ++ .getCurrentBlockNumber writerAPI ret :: rest := by
    unfold start
    rw [h1]
    simp only
    rw [h2]
    simp only [ne_eq, not_true_eq_false, if_false, continuousLoop]
    rw [hin]
    simp only
    split
    · rename_i x e s4 heq
      exact ⟨.err e, [], by simp [Run.calls, Run.after, Event.isCall, hcalls]⟩
    · exact ⟨.panic, [], by simp [Run.calls, Run.after, Event.isCall, hcalls]⟩
    · rename_i x W1 s4 heq
      exact ⟨.ok W1,
        (continuousLoop net writerAPI readerAPI (fuel + 1) fuel s4 W1 (W - 256)).calls,
        by simp [Run.calls, Run.after, Event.isCall, hcalls]⟩
  obtain ⟨ret, rest, hst⟩ := hstart
  exact ⟨blocks, s3, ret, rest, by omega, hcalls, hnext, hsub, hst⟩

set_option maxRecDepth 1000000

/-- The theorem `first_drain` for a writer at height 300 and a reader at height 0: the
first inner loop makes 44 pairs of calls and leaves the reader counter at 44. -/
theorem first_drain_witness :
    ∃ (blocks : List (List Char)) (s3 : Nat) (ret : Ret Nat) (rest : List Event),
      blocks.length = 300 - 0 - 256 ∧
      (innerLoop (demoNet "reader".toList 0 300) "writer".toList "reader".toList 300 44
        (getCurrentBlockNumber (demoNet "reader".toList 0 300)
          (getCurrentBlockNumber (demoNet "reader".toList 0 300) 0 "reader".toList).2
          "writer".toList).2 0).1.filter
          Event.isCall = relayCalls "writer".toList "reader".toList 0 blocks ∧
      (innerLoop (demoNet "reader".toList 0 300) "writer".toList "reader".toList 300 44
        (getCurrentBlockNumber (demoNet "reader".toList 0 300)
          (getCurrentBlockNumber (demoNet "reader".toList 0 300) 0 "reader".toList).2
          "writer".toList).2 0).2 = .next (s3, 300 - 256) ∧
      sub64 300 (300 - 256) ≤ 256 ∧
      (start 44 (demoNet "reader".toList 0 300) 0 "writer".toList "reader".toList 0 0).calls =
        [.getCurrentBlockNumber "reader".toList (.ok 0),
          .getCurrentBlockNumber "writer".toList (.ok 300)]
          ++ relayCalls "writer".toList "reader".toList 0 blocks
          ++ .getCurrentBlockNumber "writer".toList ret :: rest :=
  first_drain 44 (demoNet "reader".toList 0 300) 0 "writer".toList "reader".toList 300 0
    (by decide) (by decide) (by decide) (by decide) (by decide) (by decide)

/-! ## Failures -/

theorem abortsAtFailure_of_clean (es : List Event) (o : Outcome)
    (h : ∀ ev ∈ es, Event.failure ev = none) : AbortsAtFailure es o := by
  intro pre ev post e heq hf
  have h1 := h ev (by rw [heq]; simp)
  rw [h1] at hf
  cases hf

theorem abortsAtFailure_append (es1 es2 : List Event) (o : Outcome)
    (h1 : ∀ ev ∈ es1, Event.failure ev = none) (h2 : AbortsAtFailure es2 o) :
    AbortsAtFailure (es1 ++ es2) o := by
  intro pre ev post e heq hf
  rcases List.append_eq_append_iff.1 heq with ⟨a', rfl, h⟩ | ⟨c', rfl, h⟩
  · exact h2 a' ev post e h hf
  · cases c' with
    | nil => exact h2 [] ev post e (by simpa using h.symm) hf
    | cons x c'' =>
      simp only [List.cons_append, List.cons.injEq] at h
      obtain ⟨rfl, _⟩ := h
      have h3 := h1 ev (by simp)
      rw [h3] at hf
      cases hf

theorem abortsAtFailure_singleton (ev : Event) (o : Outcome)
    (h : ∀ e, Event.failure ev = some e → o = .returned (some e)) : AbortsAtFailure [ev] o := by
  intro pre ev' post e heq hf
  cases pre with
  | nil =>
    simp only [List.nil_append, List.cons.injEq] at heq
    obtain ⟨rfl, rfl⟩ := heq
    exact ⟨rfl, h e hf⟩
  | cons x pre =>
    simp only [List.cons_append, List.cons.injEq] at heq
    have h3 := congrArg List.length heq.2
    simp only [List.length_nil, List.length_append, List.length_cons] at h3
    omega

theorem relayBlock_aborts {σ : Type} (net : Net σ) (s : σ) (writerAPI readerAPI : List Char)
    (num : Nat) (es : List Event) (step : Step σ)
    (h : relayBlock net s writerAPI readerAPI num = (es, step)) :
    match step with
    | .next _ => ∀ ev ∈ es, Event.failure ev = none
    | .stop o => AbortsAtFailure es o := by
  unfold relayBlock at h
  split at h
  · cases h
    exact abortsAtFailure_singleton _ _ (by simp [Event.failure])
  · cases h
    exact abortsAtFailure_singleton _ _ (by simp [Event.failure])
  · split at h
    · cases h
      exact abortsAtFailure_append [_] [_] _ (by simp [Event.failure])
        (abortsAtFailure_singleton _ _ (by simp [Event.failure]))
    · cases h
      exact abortsAtFailure_of_clean _ _ (by simp [Event.failure])
    · cases h
      simp [Event.failure]

theorem targetLoop_aborts {σ : Type} (net : Net σ) (writerAPI readerAPI : List Char) (T : Nat) :
    ∀ (fuel : Nat) (s : σ) (R : Nat),
      AbortsAtFailure (targetLoop net writerAPI readerAPI T fuel s R).events
        (targetLoop net writerAPI readerAPI T fuel s R).outcome := by
  intro fuel
  induction fuel with
  | zero =>
    intro s R
    simp only [targetLoop]
    split <;> exact abortsAtFailure_of_clean _ _ (by simp [Event.failure])
  | succ fuel ih =>
    intro s R
    simp only [targetLoop]
    split
    · rcases hrb : relayBlock net s writerAPI readerAPI (add64 R 1) with ⟨es, step⟩
      have h := relayBlock_aborts net s writerAPI readerAPI (add64 R 1) es step hrb
      cases step with
      | stop o => exact h
      | next s' =>
        simp only [Run.after]
        refine abortsAtFailure_append _ _ _ ?_ (ih s' (add64 R 1))
        intro ev hev
        rcases List.mem_append.1 hev with hev | hev
        · exact h ev hev
        · simp only [List.mem_singleton] at hev
          subst hev
          rfl
    · exact abortsAtFailure_of_clean _ _ (by simp [Event.failure])

theorem innerLoop_aborts {σ : Type} (net : Net σ) (writerAPI readerAPI : List Char) (W : Nat) :
    ∀ (fuel : Nat) (s : σ) (R : Nat) (es : List Event) (step : Step (σ × Nat)),
      innerLoop net writerAPI readerAPI W fuel s R = (es, step) →
      match step with
      | .next _ => ∀ ev ∈ es, Event.failure ev = none
      | .stop o => AbortsAtFailure es o := by
  intro fuel
  induction fuel with
  | zero =>
    intro s R es step h
    simp only [innerLoop] at h
    split at h
    · cases h
      exact abortsAtFailure_of_clean _ _ (by simp)
    · cases h
      simp
  | succ fuel ih =>
    intro s R es step h
    simp only [innerLoop] at h
    split at h
    · rcases hrb : relayBlock net s writerAPI readerAPI (add64 R 1) with ⟨es1, step1⟩
      have h1 := relayBlock_aborts net s writerAPI readerAPI (add64 R 1) es1 step1 hrb
      rw [hrb] at h
      cases step1 with
      | stop o =>
        cases h
        exact h1
      | next s' =>
        simp only at h
        rcases hin : innerLoop net writerAPI readerAPI W fuel s' (add64 R 1) with ⟨es2, step2⟩
        have h2 := ih s' (add64 R 1) es2 step2 hin
        rw [hin] at h
        cases h
        have hclean : ∀ ev ∈ es1 ++ [Event.print (importedLine (add64 R 1) (sub64 W 256))],
            Event.failure ev = none := by
          intro ev hev
          rcases List.mem_append.1 hev with hev | hev
          · exact h1 ev hev
          · simp only [List.mem_singleton] at hev
            subst hev
            rfl
        simp only
        cases step2 with
        | stop o => exact abortsAtFailure_append _ _ _ hclean h2
        | next p =>
          intro ev hev
          rcases List.mem_append.1 hev with hev | hev
          · exact hclean ev hev
          · exact h2 ev hev
    · cases h
      simp

theorem continuousLoop_aborts {σ : Type} (net : Net σ) (writerAPI readerAPI : List Char)
    (inner : Nat) :
    ∀ (fuel : Nat) (s : σ) (W R : Nat),
      AbortsAtFailure (continuousLoop net writerAPI readerAPI inner fuel s W R).events
        (continuousLoop net writerAPI readerAPI inner fuel s W R).outcome := by
  intro fuel
  induction fuel with
  | zero =>
    intro s W R
    exact abortsAtFailure_of_clean _ _ (by simp [continuousLoop])
  | succ fuel ih =>
    intro s W R
    simp only [continuousLoop]
    rcases hin : innerLoop net writerAPI readerAPI W inner s R with ⟨es, step⟩
    have h := innerLoop_aborts net writerAPI readerAPI W inner s R es step hin
    cases step with
    | stop o => exact h
    | next p =>
      obtain ⟨s1, R1⟩ := p
      simp only at h ⊢
      have hclean : ∀ ev ∈ es ++ [Event.print "Waiting for new target...\n".toList],
          Event.failure ev = none := by
        intro ev hev
        rcases List.mem_append.1 hev with hev | hev
        · exact h ev hev
        · simp only [List.mem_singleton] at hev
          subst hev
          rfl
      split
      · rename_i x e s2 heq
        have := abortsAtFailure_append _ _ (.returned (some e)) hclean
          (abortsAtFailure_singleton (.getCurrentBlockNumber writerAPI (.err e)) _
            (by simp [Event.failure]))
        simpa using this
      · refine abortsAtFailure_of_clean _ _ ?_
        intro ev hev
        rcases List.mem_append.1 hev with hev | hev
        · exact h ev hev
        · simp only [List.mem_cons, List.mem_singleton, List.not_mem_nil, or_false] at hev
          rcases hev with rfl | rfl <;> rfl
      · rename_i x W1 s2 heq
        simp only [Run.after]
        refine abortsAtFailure_append _ _ _ ?_ (ih s2 W1 R1)
        intro ev hev
        rcases List.mem_append.1 hev with hev | hev
        · exact h ev hev
        · simp only [List.mem_cons, List.mem_singleton, List.not_mem_nil, or_false] at hev
          rcases hev with rfl | rfl | rfl <;> rfl

theorem start_aborts {σ : Type} (fuel : Nat) (net : Net σ) (s : σ)
    (writerAPI readerAPI : List Char) (target single : Nat) :
    AbortsAtFailure (start fuel net s writerAPI readerAPI target single).events
      (start fuel net s writerAPI readerAPI target single).outcome := by
  unfold start
  split
  · rcases hrb : relayBlock net s writerAPI readerAPI single with ⟨es, step⟩
    have h := relayBlock_aborts net s writerAPI readerAPI single es step hrb
    cases step with
    | stop o => exact h
    | next s' =>
      refine abortsAtFailure_of_clean _ _ ?_
      intro ev hev
      rcases List.mem_append.1 hev with hev | hev
      · exact h ev hev
      · simp only [List.mem_singleton] at hev
        subst hev
        rfl
  · split
    · exact abortsAtFailure_singleton _ _ (by simp [Event.failure])
    · exact abortsAtFailure_of_clean _ _ (by simp [Event.failure])
    · split
      · exact abortsAtFailure_append [_] [_] _ (by simp [Event.failure])
          (abortsAtFailure_singleton _ _ (by simp [Event.failure]))
      · exact abortsAtFailure_of_clean _ _ (by simp [Event.failure])
      · split
        · exact abortsAtFailure_append _ _ _ (by simp [Event.failure]) (targetLoop_aborts _ _ _ _ _ _ _)
        · exact abortsAtFailure_append _ _ _ (by simp [Event.failure])
            (continuousLoop_aborts _ _ _ _ _ _ _ _)

/-- C7: in every mode and on every network, if a call made by `start` returns an error,
then nothing follows that call in the run (no retry, no import of a block whose fetch
failed, no later fetch) and `start` returns exactly that error. -/
theorem abort_on_first_failure {σ : Type} (fuel : Nat) (net : Net σ) (s : σ)
    (writerAPI readerAPI : List Char) (target single : Nat)
    (pre : List Event) (ev : Event) (post : List Event) (e : GoError)
    (h_run : (start fuel net s writerAPI readerAPI target single).events = pre ++ ev :: post)
    (h_failed : Event.failure ev = some e) :
    post = [] ∧
      (start fuel net s writerAPI readerAPI target single).outcome = .returned (some e) :=
  start_aborts fuel net s writerAPI readerAPI target single pre ev post e h_run h_failed

/-- The theorem `abort_on_first_failure` in target mode on a network whose third POST, the
fetch of block 3, is answered with status 500. -/
theorem abort_on_first_failure_witness :
    ([] : List Event) = [] ∧
      (start 5 (brokenNet "reader".toList 1 9 2) 0 "writer".toList "reader".toList 4 0).outcome =
        .returned (some (.errorf "busy".toList)) :=
  abort_on_first_failure 5 (brokenNet "reader".toList 1 9 2) 0 "writer".toList "reader".toList 4 0
    [.getCurrentBlockNumber "reader".toList (.ok 1),
      .getCurrentBlockNumber "writer".toList (.ok 9),
      .enter .target,
      .getTrustedByNumber "writer".toList 2 (.ok "0x0".toList),
      .importTrustedBlock "reader".toList "0x0".toList (.ok ()),
      .print (importedLine 2 4)]
    (.getTrustedByNumber "writer".toList 3 (.err (.errorf "busy".toList))) []
    (.errorf "busy".toList) (by decide) (by decide)

/-! ## The choice of the mode -/

theorem relayBlock_no_enter {σ : Type} (net : Net σ) (s : σ) (writerAPI readerAPI : List Char)
    (num : Nat) (l : Loop) : Event.enter l ∉ (relayBlock net s writerAPI readerAPI num).1 := by
  unfold relayBlock
  split
  · simp
  · simp
  · split <;> simp

theorem targetLoop_no_enter {σ : Type} (net : Net σ) (writerAPI readerAPI : List Char) (T : Nat)
    (l : Loop) :
    ∀ (fuel : Nat) (s : σ) (R : Nat),
      Event.enter l ∉ (targetLoop net writerAPI readerAPI T fuel s R).events := by
  intro fuel
  induction fuel with
  | zero =>
    intro s R
    simp only [targetLoop]
    split <;> simp
  | succ fuel ih =>
    intro s R
    simp only [targetLoop]
    split
    · have h := relayBlock_no_enter net s writerAPI readerAPI (add64 R 1) l
      rcases hrb : relayBlock net s writerAPI readerAPI (add64 R 1) with ⟨es, step⟩
      rw [hrb] at h
      cases step with
      | stop o => exact h
      | next s' =>
        simp only [Run.after, List.mem_append, List.mem_singleton, reduceCtorEq, or_false,
          not_or]
        exact ⟨h, ih s' (add64 R 1)⟩
    · simp

theorem innerLoop_no_enter {σ : Type} (net : Net σ) (writerAPI readerAPI : List Char) (W : Nat)
    (l : Loop) :
    ∀ (fuel : Nat) (s : σ) (R : Nat),
      Event.enter l ∉ (innerLoop net writerAPI readerAPI W fuel s R).1 := by
  intro fuel
  induction fuel with
  | zero =>
    intro s R
    simp only [innerLoop]
    split <;> simp
  | succ fuel ih =>
    intro s R
    simp only [innerLoop]
    split
    · have h := relayBlock_no_enter net s writerAPI readerAPI (add64 R 1) l
      rcases hrb : relayBlock net s writerAPI readerAPI (add64 R 1) with ⟨es, step⟩
      rw [hrb] at h
      cases step with
      | stop o => exact h
      | next s' =>
        simp only [List.mem_append, List.mem_singleton, reduceCtorEq, or_false, not_or]
        exact ⟨h, ih s' (add64 R 1)⟩
    · simp

theorem continuousLoop_no_enter {σ : Type} (net : Net σ) (writerAPI readerAPI : List Char)
    (inner : Nat) (l : Loop) :
    ∀ (fuel : Nat) (s : σ) (W R : Nat),
      Event.enter l ∉ (continuousLoop net writerAPI readerAPI inner fuel s W R).events := by
  intro fuel
  induction fuel with
  | zero =>
    intro s W R
    simp [continuousLoop]
  | succ fuel ih =>
    intro s W R
    simp only [continuousLoop]
    have h := innerLoop_no_enter net writerAPI readerAPI W l inner s R
    rcases hin : innerLoop net writerAPI readerAPI W inner s R with ⟨es, step⟩
    rw [hin] at h
    cases step with
    | stop o => exact h
    | next p =>
      obtain ⟨s1, R1⟩ := p
      simp only
      split
      · simpa using h
      · simpa using h
      · rename_i x W1 s2 heq
        simp only [Run.after, List.mem_append, List.mem_cons, reduceCtorEq, List.not_mem_nil,
          or_false, false_or, not_or]
        exact ⟨h, ih s2 W1 R1⟩

/-- C10: (i) when `single` is not 0, `start` does the same for every `target`; (ii) when
`single` is 0 and `target` is not, control never reaches the continuous loop, and it
reaches the target loop exactly when both height queries succeed; (iii) control reaches
the continuous loop exactly when `single` and `target` are 0 and both height queries
succeed. -/
theorem mode_precedence {σ : Type} (fuel : Nat) (net : Net σ) (s : σ)
    (writerAPI readerAPI : List Char) (target single : Nat) :
    (single ≠ 0 → ∀ target',
      start fuel net s writerAPI readerAPI target' single =
        start fuel net s writerAPI readerAPI target single) ∧
    (single = 0 → target ≠ 0 →
      Event.enter .continuous ∉ (start fuel net s writerAPI readerAPI target single).events) ∧
    (Event.enter .target ∈ (start fuel net s writerAPI readerAPI target single).events ↔
      single = 0 ∧ target ≠ 0 ∧ ∃ R W, (getCurrentBlockNumber net s readerAPI).1 = .ok R ∧
        (getCurrentBlockNumber net (getCurrentBlockNumber net s readerAPI).2 writerAPI).1 =
          .ok W) ∧
    (Event.enter .continuous ∈ (start fuel net s writerAPI readerAPI target single).events ↔
      single = 0 ∧ target = 0 ∧ ∃ R W, (getCurrentBlockNumber net s readerAPI).1 = .ok R ∧
        (getCurrentBlockNumber net (getCurrentBlockNumber net s readerAPI).2 writerAPI).1 =
          .ok W) := by
  have key : ∀ l : Loop,
      (Event.enter l ∈ (start fuel net s writerAPI readerAPI target single).events ↔
        single = 0 ∧ (if target ≠ 0 then l = .target else l = .continuous) ∧
          ∃ R W, (getCurrentBlockNumber net s readerAPI).1 = .ok R ∧
            (getCurrentBlockNumber net (getCurrentBlockNumber net s readerAPI).2 writerAPI).1 =
              .ok W) := by
    intro l
    unfold start
    by_cases hs : single = 0
    · simp only [hs, ne_eq, not_true_eq_false, if_false, true_and]
      rcases h1 : getCurrentBlockNumber net s readerAPI with ⟨r1, s1⟩
      cases r1 with
      | err e => simp
      | panic => simp
      | ok R =>
        simp only
        rcases h2 : getCurrentBlockNumber net s1 writerAPI with ⟨r2, s2⟩
        cases r2 with
        | err e => simp
        | panic => simp
        | ok W =>
          simp only
          by_cases ht : target = 0
          · have h := continuousLoop_no_enter net writerAPI readerAPI fuel l fuel s2 W R
            simp only [ht, not_true_eq_false, if_false, Run.after, List.mem_append,
              List.mem_cons, reduceCtorEq, List.not_mem_nil, or_false, false_or, h,
              Event.enter.injEq, Ret.ok.injEq, exists_eq', and_true, exists_const]
            exact ⟨fun h => ⟨h, R, W, rfl, rfl⟩, fun h => h.1⟩
          · have h := targetLoop_no_enter net writerAPI readerAPI target l fuel s2 R
            simp only [ht, not_false_eq_true, if_true, Run.after, List.mem_append,
              List.mem_cons, reduceCtorEq, List.not_mem_nil, or_false, false_or, h,
              Event.enter.injEq, Ret.ok.injEq, exists_eq', and_true, exists_const]
            exact ⟨fun h => ⟨h, R, W, rfl, rfl⟩, fun h => h.1⟩
    · simp only [hs, ne_eq, not_false_eq_true, if_true, false_and, iff_false]
      have h := relayBlock_no_enter net s writerAPI readerAPI single l
      rcases hrb : relayBlock net s writerAPI readerAPI single with ⟨es, step⟩
      rw [hrb] at h
      cases step with
      | stop o => exact h
      | next s' => simpa using h
  refine ⟨?_, ?_, ?_, ?_⟩
  · intro hs target'
    unfold start
    simp only [hs, ne_eq, not_false_eq_true, if_true]
  · intro _ ht hmem
    have h := (key .continuous).1 hmem
    simp [ht] at h
  · rw [key .target]
    by_cases ht : target = 0 <;> simp [ht]
  · rw [key .continuous]
    by_cases ht : target = 0 <;> simp [ht]

/-- C10, as first stated, fails when a height query fails: with `single` and `target`
both 0 on a network that cannot be reached, `start` returns the error of the first height
query and control never reaches the continuous loop; with `target` 5 it never reaches the
target loop. -/
theorem mode_precedence_needs_heights :
    (start 1 deadNet () "writer".toList "reader".toList 0 0).events =
        [.getCurrentBlockNumber "reader".toList (.err (.transport "connection refused".toList))] ∧
      ¬ (Event.enter .continuous ∈
          (start 1 deadNet () "writer".toList "reader".toList 0 0).events ↔
            ((0 : Nat) = 0 ∧ (0 : Nat) = 0)) ∧
      Event.enter .target ∉ (start 1 deadNet () "writer".toList "reader".toList 5 0).events := by
  decide

end Relayer
